import Mathlib

/-!
Verification of the Terminal Jarvis ADK dialogue orchestration core
(`src/adk/jarvis.py`, `src/adk/providers.py`, `src/adk/tools.py`).

Texts are modelled as `List Char` (Python `str`).  Python whitespace is
modelled by its ASCII members (space, tab, newline, carriage return,
vertical tab, form feed); the rare non-ASCII whitespace code points that
Python's `str.strip` / `re.\s` additionally accept play no role in the
claims checked here.
-/

/-- The apostrophe character, kept out of string literals. -/
def apos : Char := Char.ofNat 39

/-- ASCII fragment of Python's whitespace (`str.strip`, regex class `\s`). -/
def isPyWs (c : Char) : Bool :=
  c == ' ' || c == '\t' || c == '\n' || c == '\r' ||
  c == Char.ofNat 11 || c == Char.ofNat 12

/-- Sentence-ending punctuation of the `_SENT_SPLIT` regex class `[.!?]`. -/
def isSentPunct (c : Char) : Bool :=
  c == '.' || c == '!' || c == '?'

/-- ASCII lower-casing of one character, the effect of `re.IGNORECASE` /
    `str.lower` on the characters occurring in `jarvis.py`. -/
def toLowerCh (c : Char) : Char :=
  if 65 ≤ c.toNat ∧ c.toNat ≤ 90 then Char.ofNat (c.toNat + 32) else c

/-- `toLowerCh` applied to a whole text (`str.lower`). -/
def lowerL (l : List Char) : List Char := l.map toLowerCh

/-- Does `l` start with the literal pattern `p` (case-sensitive)? -/
def prefEq : List Char → List Char → Bool
  | [], _ => true
  | _ :: _, [] => false
  | a :: as, b :: bs => (a == b) && prefEq as bs

/-- Does `l` start with the (lower-case) literal pattern `p`,
    case-insensitively?  Models an anchored `re.match` of a plain
    alternative under `re.IGNORECASE`. -/
def prefCI : List Char → List Char → Bool
  | [], _ => true
  | _ :: _, [] => false
  | p :: ps, c :: cs => (toLowerCh c == p) && prefCI ps cs

/-- Python's substring test `needle in hay` (case-sensitive). -/
def containsSub (n : List Char) : List Char → Bool
  | [] => n.isEmpty
  | c :: rest => prefEq n (c :: rest) || containsSub n rest

/-- Python's `sep.join(pieces)`. -/
def joinSep (sep : List Char) : List (List Char) → List Char
  | [] => []
  | [x] => x
  | x :: y :: rest => x ++ sep ++ joinSep sep (y :: rest)

/-- Remove a maximal all-whitespace suffix (Python `str.rstrip`). -/
def dropTrailWs : List Char → List Char
  | [] => []
  | c :: rest =>
    let r := dropTrailWs rest
    if r.isEmpty && isPyWs c then [] else c :: r

/-- Python's `str.strip()` (over the modelled whitespace set). -/
def pyStrip (l : List Char) : List Char :=
  dropTrailWs (l.dropWhile isPyWs)

/-- Push a character onto the front of the first piece of a split-in-progress. -/
def consHead (c : Char) : List (List Char) → List (List Char)
  | [] => [[c]]
  | l :: ls => (c :: l) :: ls

/-- Python's `text.split("\x7bnn\x7d")` for the two-character separator
    `"\n\n"`: split at each leftmost non-overlapping occurrence.
    Models line 110 of `jarvis.py` (`text.split` on a blank line). -/
def paraGo : List Char → List (List Char)
  | [] => [[]]
  | [c] => [[c]]
  | c1 :: c2 :: rest =>
    if c1 = '\n' ∧ c2 = '\n' then [] :: paraGo rest
    else consHead c1 (paraGo (c2 :: rest))

/-- Is the first character whitespace?  (Lookahead for the `\s+` of
    `_SENT_SPLIT` and the `,?\s` tails of `_MONOLOGUE`.) -/
def headWs : List Char → Bool
  | [] => false
  | c :: _ => isPyWs c

/-- `re.split` by the `_SENT_SPLIT` pattern `(?<=[.!?])\s+`: a piece ends
    after `.`, `!` or `?` when the next character is whitespace, and the
    maximal whitespace run is consumed as the separator.  The Boolean is
    true while inside such a separator run. -/
def sentGo : Bool → List Char → List (List Char)
  | _, [] => [[]]
  | skip, c :: rest =>
    if skip && isPyWs c then sentGo true rest
    else if isSentPunct c && headWs rest then [c] :: sentGo true rest
    else consHead c (sentGo false rest)

/-- `[p.strip() for p in text.split("\x7bnn\x7d") if p.strip()]`
    (line 110 of `jarvis.py`). -/
def paragraphsOf (text : List Char) : List (List Char) :=
  ((paraGo text).map pyStrip).filter (fun p => !p.isEmpty)

/-- `[s.strip() for s in _SENT_SPLIT.split(text) if s.strip()]`
    (line 81 of `jarvis.py`). -/
def sentencesOf (text : List Char) : List (List Char) :=
  ((sentGo false text).map pyStrip).filter (fun s => !s.isEmpty)

/-- The plain anchored alternatives of the `_MONOLOGUE` regex, written in
    lower case.  Note the literal spellings produced by the source: the
    group follows `"the user "` and `"i "` including the space, so the
    apostrophe alternatives read `the user 's`, `i 'm going`, `i 've`. -/
def monoPlainPats : List (List Char) :=
  [ ("the user is").data, ("the user just").data, ("the user wants").data,
    ("the user said").data, ("the user asked").data,
    ("the user ").data ++ [apos, 's'],
    ("i should").data, ("i need to").data, ("i will").data, ("i can").data,
    ("i realize").data, ("i think").data, ("i must").data,
    ("i ").data ++ [apos] ++ ("m going").data,
    ("i ").data ++ [apos] ++ ("ve").data,
    ("according to my").data, ("according to the").data,
    ("looking at this").data, ("looking at the").data,
    ("based on").data, ("given that").data,
    ("this is a").data, ("this is an").data, ("this is the").data ]

/-- The `,?\s` tail shared by the `actually` / `wait` / `hmm` / `so` /
    `ok(ay)?` alternatives: either a whitespace character at once, or a
    comma followed by a whitespace character. -/
def commaWsTail : List Char → Bool
  | [] => false
  | c :: rest => isPyWs c || ((c == ',') && headWs rest)

/-- The alternatives of `_MONOLOGUE` of the shape `word,?\s`. -/
def monoCommaPats : List (List Char) :=
  [ ("actually").data, ("wait").data, ("hmm").data, ("so").data ]

/-- `_MONOLOGUE.match(s)` of `jarvis.py` lines 62-73 as a Boolean:
    does any alternative of the case-insensitive anchored regex match at
    the start of `s`? -/
def monologueMatch (s : List Char) : Bool :=
  monoPlainPats.any (fun p => prefCI p s)
  || (prefCI ("let me ").data s &&
        (match s.drop 7 with
         | [] => false
         | c :: _ => !isPyWs c))
  || monoCommaPats.any (fun p => prefCI p s && commaWsTail (s.drop p.length))
  || (prefCI ("okay").data s && commaWsTail (s.drop 4))
  || (prefCI ("ok").data s && commaWsTail (s.drop 2))

/-- The sentence-classification loop of `_split_monologue_sentences`
    (lines 85-94): while no real sentence has been seen, a matching
    sentence goes to the thinking list; the first non-matching sentence
    sets `found_real_sent` and it and everything after go to the
    response list. -/
def sentLoop : Bool → List (List Char) → List (List Char) × List (List Char)
  | _, [] => ([], [])
  | found, s :: rest =>
    if !found && monologueMatch s then
      let tr := sentLoop false rest
      (s :: tr.1, tr.2)
    else
      let tr := sentLoop true rest
      (tr.1, s :: tr.2)

/-- `_split_monologue_sentences` (lines 79-98): sentence-level split,
    `none` when no clean split exists. -/
def split_monologue_sentences (text : List Char) :
    Option (List Char × List Char) :=
  let sentences := sentencesOf text
  if sentences.isEmpty then none
  else
    let tr := sentLoop false sentences
    if !tr.1.isEmpty && !tr.2.isEmpty then
      some (joinSep [' '] tr.1, joinSep [' '] tr.2)
    else none

/-- One iteration of the paragraph loop of `_separate_thinking`
    (lines 116-137).  State: (thinking paragraphs, response paragraphs,
    `found_real`). -/
def paraStep (st : List (List Char) × List (List Char) × Bool)
    (para : List Char) : List (List Char) × List (List Char) × Bool :=
  let T := st.1
  let R := st.2.1
  let found := st.2.2
  if found then (T, R ++ [para], true)
  else if monologueMatch para then
    match split_monologue_sentences para with
    | some tr =>
      (T ++ (if tr.1.isEmpty then [] else [tr.1]),
       R ++ (if tr.2.isEmpty then [] else [tr.2]),
       if tr.2.isEmpty then found else true)
    | none => (T ++ [para], R, found)
  else (T, R ++ [para], true)

/-- `_separate_thinking` (lines 101-158): returns
    (thinking text, response text). -/
def separate_thinking (text : List Char) : List Char × List Char :=
  let paragraphs := paragraphsOf text
  let st := paragraphs.foldl paraStep ([], [], false)
  let fb1 : Option (List Char × List Char) :=
    if st.1.isEmpty && paragraphs.length = 1 then
      split_monologue_sentences (paragraphs.headD [])
    else none
  match fb1 with
  | some s => s
  | none =>
    let thinking := joinSep ['\n', '\n'] st.1
    let response := joinSep ['\n', '\n'] st.2.1
    let fb2 : Option (List Char × List Char) :=
      if !thinking.isEmpty && response.isEmpty then
        split_monologue_sentences (pyStrip text)
      else none
    match fb2 with
    | some s => s
    | none =>
      if response.isEmpty then ([], pyStrip text)
      else (thinking, response)

/-! ## Provider chain construction (`src/adk/providers.py`) -/

/-- Configuration/environment surface read by `get_model_chain`.
    The key fields mean "set to a non-empty value" (Python truthiness of
    `os.getenv`); `ollamaReachable` is the result of the `_ollama_reachable`
    network probe and `litellmAvailable` whether `LiteLlm` imports. -/
structure PEnv where
  jarvisModel : Option (List Char)
  googleKey : Bool
  geminiKey : Bool
  openrouterKey : Bool
  ollamaReachable : Bool
  litellmAvailable : Bool

/-- A backend handle: a plain model-name string or a `LiteLlm`-wrapped one. -/
inductive ModelObj
  | plain (s : List Char)
  | liteLlm (s : List Char)
deriving DecidableEq

/-- `'google-adk[litellm]'` with its surrounding quotes. -/
def litellmQuoted : List Char := [apos] ++ ("google-adk[litellm]").data ++ [apos]

/-- The `RuntimeError` payload of `get_model_chain` when no provider is
    configured (`providers.py` lines 77-93), rendered verbatim. -/
def noProviderMsg : List Char :=
  ("\nNo provider configured. Set one of the following in adk/.env:\n\n  Option 1 - Google Gemini (recommended):\n    GOOGLE_API_KEY=your-key-here\n\n  Option 2 - OpenRouter:\n    OPENROUTER_API_KEY=your-key-here\n    (also run: pip install ").data
  ++ litellmQuoted
  ++ (")\n\n  Option 3 - Ollama (local):\n    Start Ollama, then: ollama pull llama3.2\n    (also run: pip install ").data
  ++ litellmQuoted
  ++ (")\n\nCopy adk/.env.example to adk/.env to get started.\n").data

/-- The `RuntimeError` payload for an explicit `JARVIS_MODEL` override that
    needs the unavailable litellm integration (lines 47-50).  `{explicit!r}`
    is modelled as the string between apostrophes (the names involved contain
    no characters Python's `repr` would escape). -/
def jarvisModelMsg (explicit : List Char) : List Char :=
  ("JARVIS_MODEL=").data ++ [apos] ++ explicit ++ [apos]
  ++ (" requires ").data ++ litellmQuoted
  ++ (".\nRun: pip install ").data ++ litellmQuoted

/-- Model-name constants of `providers.py`. -/
def geminiName : List Char := ("gemini-2.0-flash").data

/-- The OpenRouter model name. -/
def openrouterName : List Char := ("openrouter/google/gemini-flash-1.5").data

/-- The local Ollama model name. -/
def ollamaName : List Char := ("ollama/llama3.2").data

/-- `get_model_chain` (`providers.py` lines 35-95): ordered
    (model, label) chain, or the error payload of the raised
    `RuntimeError`. -/
def get_model_chain (env : PEnv) :
    Except (List Char) (List (ModelObj × List Char)) :=
  match env.jarvisModel with
  | some explicit =>
    if containsSub ("/").data explicit && !prefEq ("gemini").data explicit then
      if env.litellmAvailable then Except.ok [(ModelObj.liteLlm explicit, explicit)]
      else Except.error (jarvisModelMsg explicit)
    else Except.ok [(ModelObj.plain explicit, explicit)]
  | none =>
    let c1 : List (ModelObj × List Char) :=
      if env.googleKey || env.geminiKey then
        [(ModelObj.plain geminiName, geminiName)]
      else []
    let c2 := c1 ++
      (if env.openrouterKey && env.litellmAvailable then
        [(ModelObj.liteLlm openrouterName, openrouterName)]
       else [])
    let c3 := c2 ++
      (if env.ollamaReachable && env.litellmAvailable then
        [(ModelObj.liteLlm ollamaName, ollamaName ++ (" (local)").data)]
       else [])
    if c3.isEmpty then Except.error noProviderMsg else Except.ok c3

/-! ## Failure classification (`jarvis.py` lines 182-192, 555) -/

/-- `_AUTH_SIGNALS` (lines 182-188). -/
def authSignals : List (List Char) :=
  [ ("AuthenticationError").data, ("401").data, ("403").data,
    ("User not found").data, ("invalid_api_key").data,
    ("Unauthorized").data, ("authentication failed").data,
    ("No auth credentials").data, ("API key not valid").data ]

/-- `_is_auth_error` (lines 190-192): some signal occurs in the lowered
    exception text. -/
def is_auth_error (excStr : List Char) : Bool :=
  authSignals.any (fun sig => containsSub (lowerL sig) (lowerL excStr))

/-- The session-corruption test of line 555:
    `"Missing tool results" in exc_str or "tool_call_id" in exc_str`. -/
def isCorruption (excStr : List Char) : Bool :=
  containsSub ("Missing tool results").data excStr
  || containsSub ("tool_call_id").data excStr

/-! ## Per-turn executor state machine (`jarvis.py` lines 471-599) -/

/-- Mutable per-turn executor state: the chain cursor `provider_idx`, the
    `session_rebuilds` budget counter and the `replied` flag. -/
structure TurnSt where
  idx : Nat
  rebuilds : Nat
  replied : Bool
deriving DecidableEq

/-- How one attempt of the bounded request resolves: the awaited
    `wait_for` returns the collected parts, times out, is interrupted, or
    raises with the given exception text. -/
inductive Outcome
  | success (reply : List Char) (needsRebuild : Bool)
  | timeout
  | interrupt
  | failure (excStr : List Char)

/-- Modelled from the spec: `NEEDS_SESSION_REBUILD` is imported from
    `tools` by `jarvis.py` (lines 498, 509-510) but is not defined in
    `src/adk/tools.py`.  Per spec §4.3 it is the one-slot signal a tool
    launch raises so the session is proactively rebuilt after a successful
    turn; here its polled value at the end of a successful attempt is
    carried by the `needsRebuild` field of `Outcome.success`. -/
def NEEDS_SESSION_REBUILD (o : Outcome) : Bool :=
  match o with
  | .success _ b => b
  | _ => false

/-- Observable actions of one attempt, in program order. -/
inductive Act
  | spinStart
  | spinStop
  | suppressClear
  | render (thinking response : List Char)
  | timeoutNotice (fromL toL : List Char)
  | timeoutTerminal
  | authNotice (fromL toL : List Char)
  | failNotice (fromL toL : List Char)
  | initError
  | rebuild (idx : Nat)
  | authGuide (label : List Char)
  | rawError (msg : List Char)
deriving DecidableEq

/-- The spinner bracket every attempt passes through: the spinner thread is
    started (line 479), and the inner `finally` (lines 493-499) stops it and
    clears `SUPPRESS_SPINNER` before any result of the attempt is shown. -/
def spinBracket : List Act := [Act.spinStart, Act.spinStop, Act.suppressClear]

/-- One iteration of the fallback `while` loop (lines 473-599), given how
    the awaited attempt resolves and whether `_make_runner_session` would
    succeed when called on this path. -/
def turnStep (labels : List (List Char)) (st : TurnSt) (o : Outcome)
    (initOk : Bool) : TurnSt × List Act :=
  match o with
  | .success reply _ =>
    let stripped := pyStrip reply
    let renders : List Act :=
      if stripped.isEmpty then []
      else [Act.render (separate_thinking stripped).1 (separate_thinking stripped).2]
    let rebuilds : List Act :=
      if NEEDS_SESSION_REBUILD o then [Act.rebuild st.idx] else []
    (TurnSt.mk st.idx st.rebuilds true, spinBracket ++ renders ++ rebuilds)
  | .timeout =>
    if st.idx + 1 < labels.length then
      let fromL := labels.getD st.idx []
      let toL := labels.getD (st.idx + 1) []
      if initOk then
        (TurnSt.mk (st.idx + 1) st.rebuilds st.replied,
         spinBracket ++ [Act.timeoutNotice fromL toL, Act.rebuild (st.idx + 1)])
      else
        (TurnSt.mk (st.idx + 1) st.rebuilds true,
         spinBracket ++ [Act.timeoutNotice fromL toL, Act.initError])
    else
      (TurnSt.mk st.idx st.rebuilds true, spinBracket ++ [Act.timeoutTerminal])
  | .interrupt =>
    (TurnSt.mk st.idx st.rebuilds true, spinBracket)
  | .failure excStr =>
    if isCorruption excStr && st.rebuilds < 2 then
      (TurnSt.mk st.idx (st.rebuilds + 1) st.replied,
       spinBracket ++ [Act.rebuild st.idx])
    else if st.idx + 1 < labels.length then
      let fromL := labels.getD st.idx []
      let toL := labels.getD (st.idx + 1) []
      let notice :=
        if is_auth_error excStr then Act.authNotice fromL toL
        else Act.failNotice fromL toL
      if initOk then
        (TurnSt.mk (st.idx + 1) st.rebuilds st.replied,
         spinBracket ++ [notice, Act.rebuild (st.idx + 1)])
      else
        (TurnSt.mk (st.idx + 1) st.rebuilds true,
         spinBracket ++ [notice, Act.initError])
    else
      (TurnSt.mk st.idx st.rebuilds true,
       spinBracket ++
        [if is_auth_error excStr then Act.authGuide (labels.getD st.idx [])
         else Act.rawError (("All providers failed. Last error: ").data ++ excStr)])

/-- The fallback `while not replied and provider_idx < len(chain)` loop,
    driven by a list of attempt resolutions (one per iteration). -/
def runTurn (labels : List (List Char)) :
    List (Outcome × Bool) → TurnSt → TurnSt × List Act
  | [], st => (st, [])
  | (o, initOk) :: rest, st =>
    if st.replied || labels.length ≤ st.idx then (st, [])
    else
      let s1 := turnStep labels st o initOk
      let s2 := runTurn labels rest s1.1
      (s2.1, s1.2 ++ s2.2)

/-! ## Captured tool invocation (`src/adk/tools.py` lines 54-71) -/

/-- Result of `subprocess.run([...], capture_output=True, text=True)`. -/
structure ProcResult where
  returncode : Int
  stdout : List Char
  stderr : List Char

/-- The inline message for a missing binary (lines 68-71). -/
def tjNotFoundMsg : List Char :=
  ("terminal-jarvis binary not found. Install it first: cargo install terminal-jarvis").data

/-- The empty-output placeholder of line 66. -/
def noOutputMsg : List Char := ("(no output)").data

/-- `_tj` of `tools.py` (captured mode): `none` models the
    `FileNotFoundError` of a missing binary. -/
def tj_captured (r : Option ProcResult) : List Char :=
  match r with
  | none => tjNotFoundMsg
  | some res =>
    let output :=
      if res.returncode ≠ 0 ∧ res.stderr ≠ [] then res.stdout ++ res.stderr
      else res.stdout
    let t := pyStrip output
    if t.isEmpty then noOutputMsg else t

/-- The captured-mode contract as the spec states it (§6): stdout, with
    stderr appended exactly when the exit code is non-zero and stderr is
    non-empty, the concatenation trimmed, and an empty trimmed result
    normalized to the `(no output)` placeholder; a missing binary is
    reported inline.  Stated independently of `tj_captured` to compare
    code against spec. -/
def captureSpecModel (r : Option ProcResult) : List Char :=
  match r with
  | none => tjNotFoundMsg
  | some res =>
    let appended :=
      if res.returncode = 0 ∨ res.stderr = [] then res.stdout
      else res.stdout ++ res.stderr
    if pyStrip appended = [] then noOutputMsg else pyStrip appended

/-- Does the text contain two consecutive newlines (the paragraph
    separator)?  Pieces produced by `paraGo` never do. -/
def containsDD : List Char → Bool
  | [] => false
  | [_] => false
  | c1 :: c2 :: rest => ((c1 == '\n') && (c2 == '\n')) || containsDD (c2 :: rest)

/-- "The text contains no recognized meta-commentary opener": no stripped
    paragraph of the text matches `_MONOLOGUE`, nor does any stripped
    sentence of such a paragraph (the classifier consults exactly these
    positions). -/
def noOpener (t : List Char) : Bool :=
  (paragraphsOf t).all
    (fun p => !monologueMatch p && (sentencesOf p).all (fun s => !monologueMatch s))

/-! ## Lemmas about the sentence loop and sentence split -/

theorem joinSep_ne_nil (sep : List Char) (x : List Char) (xs : List (List Char))
    (hx : x ≠ []) : joinSep sep (x :: xs) ≠ [] := by
  cases xs with
  | nil => simpa [joinSep] using hx
  | cons y r => simp [joinSep, hx]

theorem sentLoop_true (ss : List (List Char)) : sentLoop true ss = ([], ss) := by
  induction ss with
  | nil => rfl
  | cons s rest ih => simp [sentLoop, ih]

theorem sentLoop_subset (ss : List (List Char)) :
    ∀ f x, (x ∈ (sentLoop f ss).1 ∨ x ∈ (sentLoop f ss).2) → x ∈ ss := by
  induction ss with
  | nil => simp [sentLoop]
  | cons s rest ih =>
    intro f x hx
    by_cases h : (!f && monologueMatch s) = true
    · rw [sentLoop, if_pos h] at hx
      rcases hx with hx | hx
      · rcases List.mem_cons.mp hx with h1 | h1
        · simp [h1]
        · exact List.mem_cons_of_mem _ (ih false x (Or.inl h1))
      · exact List.mem_cons_of_mem _ (ih false x (Or.inr hx))
    · rw [sentLoop, if_neg h] at hx
      rcases hx with hx | hx
      · exact List.mem_cons_of_mem _ (ih true x (Or.inl hx))
      · rcases List.mem_cons.mp hx with h1 | h1
        · simp [h1]
        · exact List.mem_cons_of_mem _ (ih true x (Or.inr h1))

theorem sentLoop_nomatch_head (s : List Char) (rest : List (List Char))
    (h : monologueMatch s = false) :
    sentLoop false (s :: rest) = ([], s :: rest) := by
  simp [sentLoop, h, sentLoop_true]

theorem sentLoop_snd_exists (ss : List (List Char)) :
    (sentLoop false ss).2 ≠ [] → ∃ s ∈ ss, monologueMatch s = false := by
  induction ss with
  | nil => simp [sentLoop]
  | cons s rest ih =>
    intro h
    by_cases hm : monologueMatch s = true
    · rw [sentLoop] at h
      simp only [hm, Bool.not_false, Bool.and_true] at h
      rcases ih h with ⟨x, hx, hxm⟩
      exact ⟨x, List.mem_cons_of_mem _ hx, hxm⟩
    · exact ⟨s, List.mem_cons_self _ _, Bool.eq_false_iff.mpr hm⟩

theorem mem_sentencesOf_ne (t s : List Char) (h : s ∈ sentencesOf t) : s ≠ [] := by
  have := (List.mem_filter.mp h).2
  simpa using this

theorem mem_paragraphsOf_ne (t p : List Char) (h : p ∈ paragraphsOf t) : p ≠ [] := by
  have := (List.mem_filter.mp h).2
  simpa using this

/-- When `_split_monologue_sentences` returns a pair, both joined parts are
    non-empty. -/
theorem split_some_ne (t a b : List Char)
    (h : split_monologue_sentences t = some (a, b)) : a ≠ [] ∧ b ≠ [] := by
  unfold split_monologue_sentences at h
  by_cases he : (sentencesOf t).isEmpty = true
  · simp [he] at h
  · simp only [he, if_false] at h
    by_cases hg : (!(sentLoop false (sentencesOf t)).1.isEmpty &&
        !(sentLoop false (sentencesOf t)).2.isEmpty) = true
    · rw [if_pos hg] at h
      simp only [Bool.and_eq_true] at hg
      have h1 : (sentLoop false (sentencesOf t)).1 ≠ [] := by
        have := hg.1
        simpa using this
      have h2 : (sentLoop false (sentencesOf t)).2 ≠ [] := by
        have := hg.2
        simpa using this
      obtain ⟨x, xs, hx⟩ := List.exists_cons_of_ne_nil h1
      obtain ⟨y, ys, hy⟩ := List.exists_cons_of_ne_nil h2
      have hxne : x ≠ [] := by
        apply mem_sentencesOf_ne t
        exact sentLoop_subset _ false x (Or.inl (by rw [hx]; exact List.mem_cons_self _ _))
      have hyne : y ≠ [] := by
        apply mem_sentencesOf_ne t
        exact sentLoop_subset _ false y (Or.inr (by rw [hy]; exact List.mem_cons_self _ _))
      simp only [Bool.false_eq_true, if_false, Option.some_inj, Prod.mk.injEq] at h
      constructor
      · rw [← h.1, hx]; exact joinSep_ne_nil _ _ _ hxne
      · rw [← h.2, hy]; exact joinSep_ne_nil _ _ _ hyne
    · rw [if_neg hg] at h
      exact absurd h (by simp)

/-- When no sentence of `t` matches the pattern, the sentence split fails. -/
theorem split_none_of_nomatch (t : List Char)
    (h : ∀ s ∈ sentencesOf t, monologueMatch s = false) :
    split_monologue_sentences t = none := by
  unfold split_monologue_sentences
  by_cases he : (sentencesOf t).isEmpty = true
  · simp [he]
  · simp only [he, if_false]
    have hne : sentencesOf t ≠ [] := by simpa using he
    obtain ⟨s, rest, hs⟩ := List.exists_cons_of_ne_nil hne
    have hsm : monologueMatch s = false := h s (by rw [hs]; exact List.mem_cons_self _ _)
    rw [hs, sentLoop_nomatch_head s rest hsm]
    simp

/-! ## Lemmas about the paragraph loop -/

theorem paraStep_found (T R : List (List Char)) (p : List Char) :
    paraStep (T, R, true) p = (T, R ++ [p], true) := by
  simp [paraStep]

theorem paraStep_nomatch (T R : List (List Char)) (p : List Char)
    (h : monologueMatch p = false) :
    paraStep (T, R, false) p = (T, R ++ [p], true) := by
  simp [paraStep, h]

theorem paraStep_match_none (T R : List (List Char)) (p : List Char)
    (hm : monologueMatch p = true) (hs : split_monologue_sentences p = none) :
    paraStep (T, R, false) p = (T ++ [p], R, false) := by
  simp [paraStep, hm, hs]

theorem paraStep_match_some (T R : List (List Char)) (p a b : List Char)
    (hm : monologueMatch p = true)
    (hs : split_monologue_sentences p = some (a, b)) :
    paraStep (T, R, false) p = (T ++ [a], R ++ [b], true) := by
  have hne := split_some_ne p a b hs
  have ha : a.isEmpty = false := by simpa using hne.1
  have hb : b.isEmpty = false := by simpa using hne.2
  simp [paraStep, hm, hs, ha, hb]

theorem foldl_paraStep_found (ps : List (List Char)) :
    ∀ T R, ps.foldl paraStep (T, R, true) = (T, R ++ ps, true) := by
  induction ps with
  | nil => intro T R; simp
  | cons p rest ih =>
    intro T R
    rw [List.foldl_cons, paraStep_found, ih]
    simp

theorem foldl_paraStep_nomatch (ps : List (List Char))
    (h : ∀ p ∈ ps, monologueMatch p = false) (hne : ps ≠ []) :
    ps.foldl paraStep ([], [], false) = ([], ps, true) := by
  obtain ⟨p, rest, rfl⟩ := List.exists_cons_of_ne_nil hne
  rw [List.foldl_cons,
      paraStep_nomatch [] [] p (h p (List.mem_cons_self _ _)),
      foldl_paraStep_found]
  simp

/-! ## Claims C1, C2, C10 -/

/-- C10: the sentence-level splitter returns a pair only when both parts
    are non-empty, i.e. only when the (stripped, non-empty) sentence list
    starts with a pattern-matching sentence and contains a later
    non-matching sentence; a successful sentence-level fallback therefore
    never produces an empty reasoning or an empty answer. -/
theorem claim_C10 (text a b : List Char)
    (h : split_monologue_sentences text = some (a, b)) :
    a ≠ [] ∧ b ≠ [] ∧ sentencesOf text ≠ [] ∧
    monologueMatch ((sentencesOf text).headD []) = true ∧
    (∃ s ∈ sentencesOf text, monologueMatch s = false) := by
  have hne := split_some_ne text a b h
  have hsne : sentencesOf text ≠ [] := by
    intro hc
    rw [split_monologue_sentences, hc] at h
    simp at h
  obtain ⟨s0, rest, hs0⟩ := List.exists_cons_of_ne_nil hsne
  have hhead : monologueMatch s0 = true := by
    by_contra hm
    have hm' : monologueMatch s0 = false := Bool.eq_false_iff.mpr hm
    rw [split_monologue_sentences] at h
    rw [hs0] at h
    rw [sentLoop_nomatch_head s0 rest hm'] at h
    simp at h
  have hex : ∃ s ∈ sentencesOf text, monologueMatch s = false := by
    rw [split_monologue_sentences] at h
    by_cases he : (sentencesOf text).isEmpty = true
    · simp [he] at h
    · simp only [he, if_false] at h
      by_cases hg : (!(sentLoop false (sentencesOf text)).1.isEmpty &&
          !(sentLoop false (sentencesOf text)).2.isEmpty) = true
      · simp only [Bool.and_eq_true] at hg
        have h2 : (sentLoop false (sentencesOf text)).2 ≠ [] := by
          have := hg.2
          simpa using this
        exact sentLoop_snd_exists _ h2
      · rw [if_neg hg] at h
        exact absurd h (by simp)
  refine ⟨hne.1, hne.2, hsne, ?_, hex⟩
  rw [hs0]
  simpa using hhead

/-- Witness for C10 at a concrete input: the sentence split of
    `"I think this works. It runs fine."`. -/
theorem claim_C10_witness :
    (("I think this works.").data ≠ ([] : List Char)) ∧
    (("It runs fine.").data ≠ ([] : List Char)) ∧
    sentencesOf (("I think this works. It runs fine.").data) ≠ [] ∧
    monologueMatch ((sentencesOf (("I think this works. It runs fine.").data)).headD []) = true ∧
    (∃ s ∈ sentencesOf (("I think this works. It runs fine.").data),
      monologueMatch s = false) :=
  claim_C10 (("I think this works. It runs fine.").data)
    (("I think this works.").data) (("It runs fine.").data) (by decide)

/-- C2 as stated is false: the one-character text `" "` is a non-empty
    input on which `_separate_thinking` returns an empty reasoning AND an
    empty answer. -/
theorem claim_C2_counterexample :
    ([' '] : List Char) ≠ [] ∧
    (separate_thinking [' ']).1 = [] ∧ (separate_thinking [' ']).2 = [] := by
  decide

/-- C2 (corrected): for every input whose trimmed form is non-empty, the
    answer field of `_separate_thinking` is non-empty — so at least one
    field is non-empty, and reasoning can never swallow the whole reply.
    (For whitespace-only non-empty inputs both fields are empty, and the
    answer need not equal the whole text when paragraph joining
    normalizes blank-line runs.) -/
theorem claim_C2 (text : List Char) (h : pyStrip text ≠ []) :
    (separate_thinking text).2 ≠ [] := by
  unfold separate_thinking
  dsimp only
  split
  case _ s heq =>
    split at heq
    · obtain ⟨a, b⟩ := s
      exact (split_some_ne _ a b heq).2
    · exact absurd heq (by simp)
  case _ heq =>
    split
    case _ s2 heq2 =>
      split at heq2
      · obtain ⟨a, b⟩ := s2
        exact (split_some_ne _ a b heq2).2
      · exact absurd heq2 (by simp)
    case _ heq2 =>
      split
      · exact h
      · next hre =>
        simpa using hre

/-- Witness for C2 at a concrete input. -/
theorem claim_C2_witness :
    (separate_thinking (("hi there").data)).2 ≠ [] :=
  claim_C2 (("hi there").data) (by decide)

/-- C1 as stated is false: `"Let me check. The tool is now running."` is a
    paragraph that matches the meta-commentary pattern, yet the paragraph
    walk does not append it entirely to the reasoning accumulator — its
    second sentence is placed in the answer accumulator in the very step
    that flips the flag. -/
theorem claim_C1_counterexample :
    monologueMatch (("Let me check. The tool is now running.").data) = true ∧
    paraStep ([], [], false) (("Let me check. The tool is now running.").data)
      ≠ ([("Let me check. The tool is now running.").data], [], false) ∧
    (paraStep ([], [], false) (("Let me check. The tool is now running.").data)).2.1
      = [("The tool is now running.").data] := by
  decide

/-- C1 (corrected): while the flag is down, a matching paragraph is first
    offered to the sentence-level splitter — if that split succeeds, its
    reasoning part goes to the reasoning accumulator and its answer part
    to the answer accumulator, flipping the found-real-answer flag; only
    a matching paragraph with no clean sentence split is appended entirely
    to reasoning.  The first non-matching paragraph permanently flips the
    flag, and once the flag is up every paragraph goes to the answer
    accumulator even if it matches the pattern. -/
theorem claim_C1 :
    (∀ T R (p : List Char), paraStep (T, R, true) p = (T, R ++ [p], true)) ∧
    (∀ T R (p : List Char), monologueMatch p = false →
      paraStep (T, R, false) p = (T, R ++ [p], true)) ∧
    (∀ T R (p : List Char), monologueMatch p = true →
      split_monologue_sentences p = none →
      paraStep (T, R, false) p = (T ++ [p], R, false)) ∧
    (∀ T R (p a b : List Char), monologueMatch p = true →
      split_monologue_sentences p = some (a, b) →
      paraStep (T, R, false) p = (T ++ [a], R ++ [b], true)) ∧
    (∀ (ps : List (List Char)) T R,
      ps.foldl paraStep (T, R, true) = (T, R ++ ps, true)) :=
  ⟨paraStep_found, paraStep_nomatch, paraStep_match_none, paraStep_match_some,
   fun ps T R => foldl_paraStep_found ps T R⟩

/-- Witness for C1 at concrete inputs: a matching, sentence-splittable
    paragraph and a subsequent paragraph processed after the flag flipped. -/
theorem claim_C1_witness :
    paraStep ([], [], false) (("Let me see now. All good here.").data)
      = ([("Let me see now.").data], [("All good here.").data], true) ∧
    paraStep ([("Let me see now.").data], [("All good here.").data], true)
        (("I think so.").data)
      = ([("Let me see now.").data],
         [("All good here.").data, ("I think so.").data], true) :=
  ⟨claim_C1.2.2.2.1 [] [] _ _ _ (by decide) (by decide),
   claim_C1.1 [("Let me see now.").data] [("All good here.").data]
     (("I think so.").data)⟩

/-! ## Lemmas about the per-turn executor -/

theorem turnStep_idx_mono (labels : List (List Char)) (st : TurnSt)
    (o : Outcome) (i : Bool) : st.idx ≤ (turnStep labels st o i).1.idx := by
  cases o with
  | success r b => simp [turnStep]
  | timeout =>
    by_cases h : st.idx + 1 < labels.length
    · simp only [turnStep, if_pos h]
      cases i <;> simp
    · simp [turnStep, h]
  | interrupt => simp [turnStep]
  | failure e =>
    by_cases h1 : (isCorruption e && decide (st.rebuilds < 2)) = true
    · simp [turnStep, h1]
    · by_cases h2 : st.idx + 1 < labels.length
      · simp only [turnStep, h1, Bool.false_eq_true, if_false, if_pos h2]
        cases i <;> simp
      · simp [turnStep, h1, h2]

theorem runTurn_idx_mono (labels : List (List Char))
    (ins : List (Outcome × Bool)) :
    ∀ st : TurnSt, st.idx ≤ (runTurn labels ins st).1.idx := by
  induction ins with
  | nil => intro st; simp [runTurn]
  | cons p rest ih =>
    intro st
    obtain ⟨o, i⟩ := p
    by_cases h : (st.replied || decide (labels.length ≤ st.idx)) = true
    · simp [runTurn, h]
    · simp only [runTurn, h, Bool.false_eq_true, if_false]
      exact le_trans (turnStep_idx_mono labels st o i) (ih _)

/-- C3: within a turn the chain cursor never moves backward (for every
    attempt resolution, and along any run of the fallback loop); a
    `Timeout` with a later provider available advances the cursor by
    exactly one, and a `Timeout` at the last provider ends the turn with
    the terminal no-response message, the cursor unchanged. -/
theorem claim_C3 :
    (∀ (labels : List (List Char)) (st : TurnSt) (o : Outcome) (i : Bool),
      st.idx ≤ (turnStep labels st o i).1.idx) ∧
    (∀ (labels : List (List Char)) (ins : List (Outcome × Bool)) (st : TurnSt),
      st.idx ≤ (runTurn labels ins st).1.idx) ∧
    (∀ (labels : List (List Char)) (st : TurnSt) (i : Bool),
      st.idx + 1 < labels.length →
      (turnStep labels st Outcome.timeout i).1.idx = st.idx + 1) ∧
    (∀ (labels : List (List Char)) (st : TurnSt) (i : Bool),
      labels.length ≤ st.idx + 1 →
      turnStep labels st Outcome.timeout i =
        (TurnSt.mk st.idx st.rebuilds true,
         spinBracket ++ [Act.timeoutTerminal])) := by
  refine ⟨turnStep_idx_mono, fun labels ins st => runTurn_idx_mono labels ins st, ?_, ?_⟩
  · intro labels st i h
    simp only [turnStep, if_pos h]
    cases i <;> simp
  · intro labels st i h
    have h' : ¬(st.idx + 1 < labels.length) := by omega
    simp [turnStep, h']

/-- Witness for C3: a three-provider chain; a timeout on provider 1
    advances the cursor to provider 2, a timeout on provider 3 (the last)
    ends the turn with the terminal message, and a full run of three
    timeouts never moves the cursor backward. -/
theorem claim_C3_witness :
    (turnStep [("g").data, ("o").data, ("l").data]
        (TurnSt.mk 0 0 false) Outcome.timeout true).1.idx = 0 + 1 ∧
    turnStep [("g").data, ("o").data, ("l").data]
        (TurnSt.mk 2 0 false) Outcome.timeout true =
      (TurnSt.mk 2 0 true, spinBracket ++ [Act.timeoutTerminal]) ∧
    (TurnSt.mk 0 0 false).idx ≤
      (runTurn [("g").data, ("o").data, ("l").data]
        [(Outcome.timeout, true), (Outcome.timeout, true), (Outcome.timeout, true)]
        (TurnSt.mk 0 0 false)).1.idx :=
  ⟨claim_C3.2.2.1 _ _ true (by decide),
   claim_C3.2.2.2 _ _ true (by decide),
   claim_C3.2.1 _ _ _⟩

/-- C4: a corruption-classified failure with remaining rebuild budget
    leaves the cursor where it is, rebuilds the session against the same
    provider and consumes one unit of the per-turn budget (cap 2); with
    the budget exhausted, a further corruption failure falls through to
    the fallback-and-advance policy and the cursor advances. -/
theorem claim_C4 :
    (∀ (labels : List (List Char)) (st : TurnSt) (e : List Char) (i : Bool),
      isCorruption e = true → st.rebuilds < 2 →
      turnStep labels st (Outcome.failure e) i =
        (TurnSt.mk st.idx (st.rebuilds + 1) st.replied,
         spinBracket ++ [Act.rebuild st.idx])) ∧
    (∀ (labels : List (List Char)) (st : TurnSt) (e : List Char) (i : Bool),
      isCorruption e = true → 2 ≤ st.rebuilds → st.idx + 1 < labels.length →
      (turnStep labels st (Outcome.failure e) i).1.idx = st.idx + 1) := by
  constructor
  · intro labels st e i hc hb
    simp [turnStep, hc, hb]
  · intro labels st e i hc hb hnext
    have hb' : ¬(st.rebuilds < 2) := by omega
    simp only [turnStep, hc, hb', decide_eq_true_eq, Bool.true_and,
      decide_eq_false_iff_not, if_neg, if_pos hnext]
    cases i <;> simp [hb']

/-- Witness for C4: with a two-provider chain and the corruption text
    `"Missing tool results"`, the first two corruption failures rebuild in
    place consuming the budget, and the third advances the cursor. -/
theorem claim_C4_witness :
    turnStep [("g").data, ("o").data] (TurnSt.mk 0 0 false)
        (Outcome.failure (("Missing tool results").data)) true =
      (TurnSt.mk 0 1 false, spinBracket ++ [Act.rebuild 0]) ∧
    turnStep [("g").data, ("o").data] (TurnSt.mk 0 1 false)
        (Outcome.failure (("Missing tool results").data)) true =
      (TurnSt.mk 0 2 false, spinBracket ++ [Act.rebuild 0]) ∧
    (turnStep [("g").data, ("o").data] (TurnSt.mk 0 2 false)
        (Outcome.failure (("Missing tool results").data)) true).1.idx = 0 + 1 :=
  ⟨claim_C4.1 _ _ _ true (by decide) (by decide),
   claim_C4.1 _ _ _ true (by decide) (by decide),
   claim_C4.2 _ _ _ true (by decide) (by decide) (by decide)⟩

/-- C7: when the chain is exhausted by a non-corruption-retryable failure
    (the cursor is at the last provider), the turn ends and the report
    depends on the failure classification: an auth-classified failure
    (some fixed signal substring occurs case-insensitively in its text)
    shows the per-provider setup guide, any other failure surfaces the
    last error text verbatim inside the final message. -/
theorem claim_C7 (labels : List (List Char)) (st : TurnSt) (e : List Char)
    (i : Bool) (hnc : isCorruption e = false ∨ 2 ≤ st.rebuilds)
    (hlast : labels.length ≤ st.idx + 1) :
    turnStep labels st (Outcome.failure e) i =
      (TurnSt.mk st.idx st.rebuilds true,
       spinBracket ++
        [if is_auth_error e then Act.authGuide (labels.getD st.idx [])
         else Act.rawError (("All providers failed. Last error: ").data ++ e)]) ∧
    (is_auth_error e = true ↔
      ∃ sig ∈ authSignals, containsSub (lowerL sig) (lowerL e) = true) := by
  constructor
  · have hcond : (isCorruption e && decide (st.rebuilds < 2)) = false := by
      rcases hnc with h | h
      · simp [h]
      · have : ¬(st.rebuilds < 2) := by omega
        simp [this]
    have hnext : ¬(st.idx + 1 < labels.length) := by omega
    simp [turnStep, hcond, hnext]
  · simp [is_auth_error, List.any_eq_true]

/-- Witness for C7 at a concrete exhausted state: an auth-classified last
    failure on a single-provider chain. -/
theorem claim_C7_witness :
    turnStep [("g").data] (TurnSt.mk 0 0 false)
        (Outcome.failure (("HTTP 401 Unauthorized").data)) true =
      (TurnSt.mk 0 0 true,
       spinBracket ++
        [if is_auth_error (("HTTP 401 Unauthorized").data) then
          Act.authGuide (([("g").data]).getD 0 [])
         else Act.rawError (("All providers failed. Last error: ").data ++
                (("HTTP 401 Unauthorized").data))]) ∧
    (is_auth_error (("HTTP 401 Unauthorized").data) = true ↔
      ∃ sig ∈ authSignals,
        containsSub (lowerL sig) (lowerL (("HTTP 401 Unauthorized").data)) = true) :=
  claim_C7 [("g").data] (TurnSt.mk 0 0 false) (("HTTP 401 Unauthorized").data)
    true (Or.inl (by decide)) (by decide)

/-- C8: every attempt of the loop body, whatever its resolution, emits the
    spinner start and then — before any rendering, notice or error output —
    the spinner stop and the unconditional clearing of the suppress
    signal; neither spinner action nor the clear recurs later, so the
    cleanup always precedes the turn result on every exit path. -/
theorem claim_C8 (labels : List (List Char)) (st : TurnSt) (o : Outcome)
    (i : Bool) :
    ∃ t, (turnStep labels st o i).2 =
        Act.spinStart :: Act.spinStop :: Act.suppressClear :: t ∧
      Act.spinStart ∉ t ∧ Act.spinStop ∉ t ∧ Act.suppressClear ∉ t := by
  cases o with
  | success r b =>
    refine ⟨(if (pyStrip r).isEmpty then []
      else [Act.render (separate_thinking (pyStrip r)).1
              (separate_thinking (pyStrip r)).2]) ++
      (if NEEDS_SESSION_REBUILD (Outcome.success r b) then [Act.rebuild st.idx] else []),
      by simp [turnStep, spinBracket], ?_, ?_, ?_⟩ <;>
    · by_cases h1 : (pyStrip r).isEmpty <;> by_cases h2 : b <;>
        simp [h1, h2, NEEDS_SESSION_REBUILD]
  | timeout =>
    by_cases h : st.idx + 1 < labels.length
    · cases i
      · exact ⟨[Act.timeoutNotice (labels.getD st.idx []) (labels.getD (st.idx + 1) []),
          Act.initError], by simp [turnStep, h, spinBracket], by simp, by simp, by simp⟩
      · exact ⟨[Act.timeoutNotice (labels.getD st.idx []) (labels.getD (st.idx + 1) []),
          Act.rebuild (st.idx + 1)], by simp [turnStep, h, spinBracket],
          by simp, by simp, by simp⟩
    · exact ⟨[Act.timeoutTerminal], by simp [turnStep, h, spinBracket],
        by simp, by simp, by simp⟩
  | interrupt =>
    exact ⟨[], by simp [turnStep, spinBracket], by simp, by simp, by simp⟩
  | failure e =>
    by_cases h1 : (isCorruption e && decide (st.rebuilds < 2)) = true
    · exact ⟨[Act.rebuild st.idx], by simp [turnStep, h1, spinBracket],
        by simp, by simp, by simp⟩
    · by_cases h2 : st.idx + 1 < labels.length
      · cases i
        · refine ⟨[if is_auth_error e then
              Act.authNotice (labels.getD st.idx []) (labels.getD (st.idx + 1) [])
            else Act.failNotice (labels.getD st.idx []) (labels.getD (st.idx + 1) []),
            Act.initError], by simp [turnStep, h1, h2, spinBracket], ?_, ?_, ?_⟩ <;>
          · by_cases ha : is_auth_error e <;> simp [ha]
        · refine ⟨[if is_auth_error e then
              Act.authNotice (labels.getD st.idx []) (labels.getD (st.idx + 1) [])
            else Act.failNotice (labels.getD st.idx []) (labels.getD (st.idx + 1) []),
            Act.rebuild (st.idx + 1)], by simp [turnStep, h1, h2, spinBracket], ?_, ?_, ?_⟩ <;>
          · by_cases ha : is_auth_error e <;> simp [ha]
      · refine ⟨[if is_auth_error e then Act.authGuide (labels.getD st.idx [])
            else Act.rawError (("All providers failed. Last error: ").data ++ e)],
            by simp [turnStep, h1, h2, spinBracket], ?_, ?_, ?_⟩ <;>
        · by_cases ha : is_auth_error e <;> simp [ha]

/-! ## Claims C9 and C5 -/

set_option maxRecDepth 8000

/-- C9: the captured tool invocation returns exactly what the spec
    describes — stdout with stderr appended precisely when the exit code
    is non-zero and stderr non-empty, trimmed, an empty trimmed result
    replaced by the `(no output)` placeholder, and a missing binary
    reported by the inline install-instruction message. -/
theorem claim_C9 : ∀ r : Option ProcResult, tj_captured r = captureSpecModel r := by
  intro r
  cases r with
  | none => rfl
  | some res =>
    unfold tj_captured captureSpecModel
    dsimp only
    by_cases h : res.returncode ≠ 0 ∧ res.stderr ≠ []
    · have h2 : ¬(res.returncode = 0 ∨ res.stderr = []) := by tauto
      rw [if_pos h, if_neg h2]
      by_cases he : (pyStrip (res.stdout ++ res.stderr)).isEmpty = true
      · rw [if_pos he, if_pos (by simpa using he)]
      · rw [if_neg he, if_neg (by simpa using he)]
    · have h2 : res.returncode = 0 ∨ res.stderr = [] := by tauto
      rw [if_neg h, if_pos h2]
      by_cases he : (pyStrip res.stdout).isEmpty = true
      · rw [if_pos he, if_pos (by simpa using he)]
      · rw [if_neg he, if_neg (by simpa using he)]

/-- C5 as stated is false at an explicit input: with
    `JARVIS_MODEL=openrouter/google/gemini-flash-1.5` set, the litellm
    integration unavailable and a Google key present, chain construction
    fails even though the chain would not be empty, and the failure
    payload is not the `NoProviderConfigured` message — it does not even
    mention Ollama. -/
theorem claim_C5_counterexample :
    get_model_chain
      (PEnv.mk (some (("openrouter/google/gemini-flash-1.5").data))
        true false false false false) =
      Except.error (jarvisModelMsg (("openrouter/google/gemini-flash-1.5").data)) ∧
    jarvisModelMsg (("openrouter/google/gemini-flash-1.5").data) ≠ noProviderMsg ∧
    containsSub (("Ollama").data)
      (jarvisModelMsg (("openrouter/google/gemini-flash-1.5").data)) = false := by
  refine ⟨by rfl, by decide, by decide⟩

/-- C5 (corrected): with no explicit `JARVIS_MODEL` override, chain
    construction fails exactly when the assembled chain is empty, always
    with the `NoProviderConfigured` message, which names all three
    supported configuration paths (`GOOGLE_API_KEY`, `OPENROUTER_API_KEY`,
    Ollama); a configured OpenRouter or Ollama source whose litellm
    integration is unavailable is skipped silently; any successful
    construction yields a non-empty chain.  An explicit non-`gemini`
    slash-containing override without litellm instead fails with an
    install-instruction error. -/
theorem claim_C5 (env : PEnv) (hj : env.jarvisModel = none) :
    ((get_model_chain env = Except.error noProviderMsg) ↔
      ((env.googleKey || env.geminiKey) = false ∧
       (env.openrouterKey && env.litellmAvailable) = false ∧
       (env.ollamaReachable && env.litellmAvailable) = false)) ∧
    (∀ msg, get_model_chain env = Except.error msg → msg = noProviderMsg) ∧
    (∀ c, get_model_chain env = Except.ok c → c ≠ []) ∧
    containsSub (("GOOGLE_API_KEY").data) noProviderMsg = true ∧
    containsSub (("OPENROUTER_API_KEY").data) noProviderMsg = true ∧
    containsSub (("Ollama").data) noProviderMsg = true := by
  obtain ⟨jm, g1, g2, orK, ol, ll⟩ := env
  cases hj
  refine ⟨?_, ?_, ?_, by decide, by decide, by decide⟩ <;>
    cases g1 <;> cases g2 <;> cases orK <;> cases ol <;> cases ll <;>
      simp [get_model_chain]

/-- Witness for C5: the empty environment produces the
    `NoProviderConfigured` failure. -/
theorem claim_C5_witness :
    get_model_chain (PEnv.mk none false false false false false) =
      Except.error noProviderMsg :=
  (claim_C5 (PEnv.mk none false false false false false) rfl).1.mpr
    ⟨by decide, by decide, by decide⟩

/-! ## Paragraph split/join round-trip lemmas -/

theorem containsDD_cons (c : Char) (l : List Char)
    (h : containsDD (c :: l) = false) : containsDD l = false := by
  cases l with
  | nil => rfl
  | cons d r =>
    rw [containsDD] at h
    exact (Bool.or_eq_false_iff.mp h).2

theorem consHead_ne_nil (c : Char) (ps : List (List Char)) :
    consHead c ps ≠ [] := by
  cases ps <;> simp [consHead]

theorem paraGo_ne_nil (l : List Char) : paraGo l ≠ [] := by
  induction l using paraGo.induct with
  | case1 => simp [paraGo]
  | case2 c => simp [paraGo]
  | case3 c1 c2 rest h ih => simp [paraGo, h]
  | case4 c1 c2 rest h ih =>
    rw [paraGo, if_neg h]
    exact consHead_ne_nil _ _

theorem paraGo_head_head (l : List Char) (y : List Char) (ps : List (List Char))
    (h : paraGo l = y :: ps) : y = [] ∨ y.head? = l.head? := by
  cases l with
  | nil =>
    rw [paraGo] at h
    cases h
    exact Or.inl rfl
  | cons c1 tail =>
    cases tail with
    | nil =>
      rw [paraGo] at h
      cases h
      exact Or.inr rfl
    | cons c2 rest =>
      by_cases hc : c1 = '\n' ∧ c2 = '\n'
      · rw [paraGo, if_pos hc] at h
        cases h
        exact Or.inl rfl
      · rw [paraGo, if_neg hc] at h
        obtain ⟨y2, ps2, h2⟩ := List.exists_cons_of_ne_nil (paraGo_ne_nil (c2 :: rest))
        rw [h2] at h
        rw [consHead] at h
        cases h
        exact Or.inr rfl

theorem paraGo_mem_noDD (l : List Char) :
    ∀ p ∈ paraGo l, containsDD p = false := by
  induction l using paraGo.induct with
  | case1 => intro p hp; rw [paraGo] at hp; simp at hp; subst hp; rfl
  | case2 c => intro p hp; rw [paraGo] at hp; simp at hp; subst hp; rfl
  | case3 c1 c2 rest h ih =>
    intro p hp
    rw [paraGo, if_pos h] at hp
    rcases List.mem_cons.mp hp with h1 | h1
    · simp [h1, containsDD]
    · exact ih p h1
  | case4 c1 c2 rest h ih =>
    intro p hp
    rw [paraGo, if_neg h] at hp
    obtain ⟨y, ps, h2⟩ := List.exists_cons_of_ne_nil (paraGo_ne_nil (c2 :: rest))
    rw [h2, consHead] at hp
    rcases List.mem_cons.mp hp with h1 | h1
    · subst h1
      have hy : containsDD y = false := ih y (by rw [h2]; exact List.mem_cons_self _ _)
      cases y with
      | nil => simp [containsDD]
      | cons d r =>
        rw [containsDD, Bool.or_eq_false_iff]
        refine ⟨?_, hy⟩
        have := paraGo_head_head (c2 :: rest) (d :: r) ps h2
        rcases this with h3 | h3
        · exact absurd h3 (by simp)
        · simp only [List.head?_cons, List.head?] at h3
          have hd : d = c2 := by
            have := h3
            injection this
          rw [hd]
          by_cases hcn : c1 = '\n'
          · have hc2 : ¬(c2 = '\n') := fun hc2 => h ⟨hcn, hc2⟩
            simp [hc2]
          · simp [hcn]
    · exact ih p (by rw [h2]; exact List.mem_cons_of_mem _ h1)

theorem joinSep_cons_cons (sep : List Char) (c : Char) (y : List Char)
    (ps : List (List Char)) :
    joinSep sep ((c :: y) :: ps) = c :: joinSep sep (y :: ps) := by
  cases ps with
  | nil => simp [joinSep]
  | cons z zs => simp [joinSep]

theorem joinSep_paraGo (l : List Char) :
    joinSep ['\n', '\n'] (paraGo l) = l := by
  induction l using paraGo.induct with
  | case1 => rfl
  | case2 c => rfl
  | case3 c1 c2 rest h ih =>
    rw [paraGo, if_pos h]
    obtain ⟨x, xs, h2⟩ := List.exists_cons_of_ne_nil (paraGo_ne_nil rest)
    rw [h2]
    rw [joinSep]
    rw [← h2, ih]
    simp [h.1, h.2]
  | case4 c1 c2 rest h ih =>
    rw [paraGo, if_neg h]
    obtain ⟨y, ps, h2⟩ := List.exists_cons_of_ne_nil (paraGo_ne_nil (c2 :: rest))
    rw [h2, consHead, joinSep_cons_cons, ← h2, ih]

theorem paraGo_noDD_self (p : List Char) (h : containsDD p = false) :
    paraGo p = [p] := by
  induction p with
  | nil => rfl
  | cons c1 tail ih =>
    cases tail with
    | nil => rfl
    | cons c2 rest =>
      have hc : ¬(c1 = '\n' ∧ c2 = '\n') := by
        intro hc
        rw [containsDD, hc.1, hc.2] at h
        simp at h
      rw [paraGo, if_neg hc, ih (containsDD_cons _ _ h), consHead]

theorem paraGo_append_sep (p t : List Char) (h : containsDD p = false)
    (hl : p.getLast? ≠ some '\n') :
    paraGo (p ++ '\n' :: '\n' :: t) = p :: paraGo t := by
  induction p with
  | nil => rw [List.nil_append, paraGo, if_pos ⟨rfl, rfl⟩]
  | cons c1 tail ih =>
    cases tail with
    | nil =>
      have hc : ¬(c1 = '\n') := by
        intro hc
        exact hl (by simp [hc])
      rw [List.cons_append, List.nil_append, paraGo,
        if_neg (fun hx => hc hx.1), paraGo, if_pos ⟨rfl, rfl⟩, consHead]
    | cons c2 rest =>
      have hc : ¬(c1 = '\n' ∧ c2 = '\n') := by
        intro hc
        rw [containsDD, hc.1, hc.2] at h
        simp at h
      have htail : paraGo (c2 :: (rest ++ '\n' :: '\n' :: t))
          = (c2 :: rest) :: paraGo t := by
        have hres := ih (containsDD_cons _ _ h)
          (by rw [List.getLast?_cons_cons] at hl; exact hl)
        simpa using hres
      rw [List.cons_append, List.cons_append, paraGo, if_neg hc, htail, consHead]

theorem paraGo_joinSep (ps : List (List Char)) (hne : ps ≠ [])
    (h : ∀ p ∈ ps, containsDD p = false ∧ p.getLast? ≠ some '\n') :
    paraGo (joinSep ['\n', '\n'] ps) = ps := by
  induction ps with
  | nil => exact absurd rfl hne
  | cons p rest ih =>
    cases rest with
    | nil =>
      rw [joinSep]
      exact paraGo_noDD_self p (h p (List.mem_cons_self _ _)).1
    | cons q rest2 =>
      rw [joinSep]
      rw [show p ++ ['\n', '\n'] ++ joinSep ['\n', '\n'] (q :: rest2)
            = p ++ '\n' :: '\n' :: joinSep ['\n', '\n'] (q :: rest2) from by simp]
      rw [paraGo_append_sep p _ (h p (List.mem_cons_self _ _)).1
            (h p (List.mem_cons_self _ _)).2]
      rw [ih (by simp) (fun x hx => h x (List.mem_cons_of_mem _ hx))]

/-! ## Strip fixpoint and whitespace lemmas -/

theorem containsDD_dropWhile (l : List Char) (h : containsDD l = false) :
    containsDD (l.dropWhile isPyWs) = false := by
  induction l with
  | nil => simpa using h
  | cons c rest ih =>
    rw [List.dropWhile_cons]
    by_cases hc : isPyWs c = true
    · rw [if_pos hc]
      exact ih (containsDD_cons _ _ h)
    · rw [if_neg hc]
      exact h

theorem head?_dropTrailWs (l : List Char) (c : Char)
    (h : (dropTrailWs l).head? = some c) : l.head? = some c := by
  cases l with
  | nil => simp [dropTrailWs] at h
  | cons d rest =>
    rw [dropTrailWs] at h
    by_cases hb : ((dropTrailWs rest).isEmpty && isPyWs d) = true
    · simp only [hb, if_true] at h
      simp at h
    · simp only [hb, if_false] at h
      simpa using h

theorem containsDD_dropTrail (l : List Char) (h : containsDD l = false) :
    containsDD (dropTrailWs l) = false := by
  induction l with
  | nil => simpa using h
  | cons c rest ih =>
    rw [dropTrailWs]
    by_cases hb : ((dropTrailWs rest).isEmpty && isPyWs c) = true
    · rw [if_pos hb]; rfl
    · rw [if_neg hb]
      cases hdt : dropTrailWs rest with
      | nil => rfl
      | cons d r2 =>
        have hdh : rest.head? = some d :=
          head?_dropTrailWs rest d (by rw [hdt]; rfl)
        obtain ⟨rest2, hrest⟩ : ∃ rest2, rest = d :: rest2 := by
          cases rest with
          | nil => simp at hdh
          | cons x xs =>
            simp only [List.head?_cons, Option.some_inj] at hdh
            exact ⟨xs, by rw [hdh]⟩
        have hdd : containsDD (dropTrailWs rest) = false :=
          ih (containsDD_cons _ _ h)
        rw [containsDD, Bool.or_eq_false_iff]
        constructor
        · rw [hrest, containsDD, Bool.or_eq_false_iff] at h
          exact h.1
        · rw [← hdt]
          exact hdd

theorem containsDD_pyStrip (l : List Char) (h : containsDD l = false) :
    containsDD (pyStrip l) = false :=
  containsDD_dropTrail _ (containsDD_dropWhile _ h)

theorem head?_dropWhile_not (l : List Char) (c : Char)
    (h : (l.dropWhile isPyWs).head? = some c) : isPyWs c = false := by
  induction l with
  | nil => simp at h
  | cons d rest ih =>
    rw [List.dropWhile_cons] at h
    by_cases hc : isPyWs d = true
    · rw [if_pos hc] at h
      exact ih h
    · rw [if_neg hc] at h
      simp only [List.head?_cons, Option.some_inj] at h
      rw [← h]
      simpa using hc

theorem getLast?_dropTrailWs_not (l : List Char) (c : Char)
    (h : (dropTrailWs l).getLast? = some c) : isPyWs c = false := by
  induction l with
  | nil => simp [dropTrailWs] at h
  | cons d rest ih =>
    rw [dropTrailWs] at h
    by_cases hb : ((dropTrailWs rest).isEmpty && isPyWs d) = true
    · rw [if_pos hb] at h
      simp at h
    · rw [if_neg hb] at h
      cases hdt : dropTrailWs rest with
      | nil =>
        rw [hdt] at h hb
        simp only [List.getLast?_singleton, Option.some_inj] at h
        subst h
        simpa using hb
      | cons x xs =>
        rw [hdt, List.getLast?_cons_cons, ← hdt] at h
        exact ih h

theorem dropWhile_eq_self_of_head (l : List Char) (c : Char)
    (h : l.head? = some c) (hc : isPyWs c = false) :
    l.dropWhile isPyWs = l := by
  cases l with
  | nil => rfl
  | cons d rest =>
    simp only [List.head?_cons, Option.some_inj] at h
    rw [List.dropWhile_cons, if_neg]
    rw [h]
    simp [hc]

theorem dropTrailWs_eq_self_of_getLast (l : List Char) (c : Char)
    (h : l.getLast? = some c) (hc : isPyWs c = false) :
    dropTrailWs l = l := by
  induction l with
  | nil => rfl
  | cons d rest ih =>
    cases rest with
    | nil =>
      simp only [List.getLast?_singleton, Option.some_inj] at h
      subst h
      rw [dropTrailWs]
      simp [dropTrailWs, hc]
    | cons x xs =>
      rw [List.getLast?_cons_cons] at h
      have hr : dropTrailWs (x :: xs) = x :: xs := ih h
      rw [dropTrailWs]
      simp [hr]

theorem pyStrip_idem (l : List Char) : pyStrip (pyStrip l) = pyStrip l := by
  cases hp : pyStrip l with
  | nil => rfl
  | cons c r =>
    have hhc : isPyWs c = false := by
      have hh : (pyStrip l).head? = some c := by rw [hp]; rfl
      have hh2 := head?_dropTrailWs _ _ hh
      exact head?_dropWhile_not l c hh2
    obtain ⟨e, he⟩ : ∃ e, (c :: r).getLast? = some e :=
      ⟨(c :: r).getLast (by simp), List.getLast?_eq_getLast _ _⟩
    have hec : isPyWs e = false := by
      apply getLast?_dropTrailWs_not (l.dropWhile isPyWs) e
      show (pyStrip l).getLast? = some e
      rw [hp]
      exact he
    show dropTrailWs ((c :: r).dropWhile isPyWs) = c :: r
    rw [dropWhile_eq_self_of_head (c :: r) c rfl hhc]
    exact dropTrailWs_eq_self_of_getLast _ _ he hec

theorem pyStrip_getLast_ne_newline (l : List Char) :
    (pyStrip l).getLast? ≠ some '\n' := by
  intro h
  have := getLast?_dropTrailWs_not _ _ h
  simp [isPyWs] at this

theorem mem_joinSep (sep : List Char) (ps : List (List Char)) (c : Char)
    (h : c ∈ joinSep sep ps) : (∃ p ∈ ps, c ∈ p) ∨ c ∈ sep := by
  induction ps with
  | nil => simp [joinSep] at h
  | cons x t ih =>
    cases t with
    | nil =>
      rw [joinSep] at h
      exact Or.inl ⟨x, List.mem_cons_self _ _, h⟩
    | cons y rest =>
      rw [joinSep] at h
      rcases List.mem_append.mp h with h1 | h1
      · rcases List.mem_append.mp h1 with h2 | h2
        · exact Or.inl ⟨x, List.mem_cons_self _ _, h2⟩
        · exact Or.inr h2
      · rcases ih h1 with ⟨p, hp, hc⟩ | h2
        · exact Or.inl ⟨p, List.mem_cons_of_mem _ hp, hc⟩
        · exact Or.inr h2

theorem dropTrailWs_nil_all (l : List Char) (h : dropTrailWs l = []) :
    ∀ c ∈ l, isPyWs c = true := by
  induction l with
  | nil => simp
  | cons d rest ih =>
    rw [dropTrailWs] at h
    by_cases hb : ((dropTrailWs rest).isEmpty && isPyWs d) = true
    · intro c hc
      simp only [Bool.and_eq_true, List.isEmpty_iff] at hb
      rcases List.mem_cons.mp hc with h1 | h1
      · rw [h1]; exact hb.2
      · exact ih hb.1 c h1
    · rw [if_neg hb] at h
      simp at h

theorem pyStrip_nil_all (l : List Char) (h : pyStrip l = []) :
    ∀ c ∈ l, isPyWs c = true := by
  intro c hc
  have hsplit := List.takeWhile_append_dropWhile (p := isPyWs) (l := l)
  rw [← hsplit] at hc
  rcases List.mem_append.mp hc with h1 | h1
  · exact List.mem_takeWhile_imp h1
  · exact dropTrailWs_nil_all _ h c h1

theorem all_ws_pyStrip_nil (l : List Char) (h : ∀ c ∈ l, isPyWs c = true) :
    pyStrip l = [] := by
  unfold pyStrip
  have : l.dropWhile isPyWs = [] := by
    rw [List.dropWhile_eq_nil_iff]
    exact h
  rw [this]
  rfl

theorem paragraphsOf_nil_strip (t : List Char) (h : paragraphsOf t = []) :
    pyStrip t = [] := by
  have hall : ∀ q ∈ paraGo t, pyStrip q = [] := by
    intro q hq
    unfold paragraphsOf at h
    rw [List.filter_eq_nil_iff] at h
    have := h (pyStrip q) (List.mem_map_of_mem _ hq)
    simpa using this
  apply all_ws_pyStrip_nil
  intro c hc
  rw [← joinSep_paraGo t] at hc
  rcases mem_joinSep _ _ _ hc with ⟨p, hp, hcp⟩ | hsep
  · exact pyStrip_nil_all p (hall p hp) c hcp
  · rcases List.mem_cons.mp hsep with h1 | h1
    · rw [h1]; rfl
    · simp at h1
      rw [h1]; rfl

theorem mem_paragraphsOf_elim (t p : List Char) (h : p ∈ paragraphsOf t) :
    ∃ q ∈ paraGo t, pyStrip q = p := by
  unfold paragraphsOf at h
  have h1 := (List.mem_filter.mp h).1
  obtain ⟨q, hq, hqp⟩ := List.mem_map.mp h1
  exact ⟨q, hq, hqp⟩

theorem paragraphsOf_props (t p : List Char) (h : p ∈ paragraphsOf t) :
    containsDD p = false ∧ p.getLast? ≠ some '\n' ∧ pyStrip p = p := by
  obtain ⟨q, hq, hqp⟩ := mem_paragraphsOf_elim t p h
  have hdd : containsDD p = false := by
    rw [← hqp]
    exact containsDD_pyStrip q (paraGo_mem_noDD t q hq)
  have hln : p.getLast? ≠ some '\n' := by
    rw [← hqp]
    exact pyStrip_getLast_ne_newline q
  have hfix : pyStrip p = p := by
    rw [← hqp]
    exact pyStrip_idem q
  exact ⟨hdd, hln, hfix⟩

theorem paragraphsOf_joinSep (t : List Char) (hne : paragraphsOf t ≠ []) :
    paragraphsOf (joinSep ['\n', '\n'] (paragraphsOf t)) = paragraphsOf t := by
  have hgo : paraGo (joinSep ['\n', '\n'] (paragraphsOf t)) = paragraphsOf t :=
    paraGo_joinSep _ hne
      (fun p hp => ⟨(paragraphsOf_props t p hp).1, (paragraphsOf_props t p hp).2.1⟩)
  have hmap : (paragraphsOf t).map pyStrip = paragraphsOf t := by
    have := List.map_congr_left
      (fun p (hp : p ∈ paragraphsOf t) => (paragraphsOf_props t p hp).2.2)
    rw [show (paragraphsOf t).map (fun p => p) = paragraphsOf t from List.map_id _] at this
    exact this
  show ((paraGo (joinSep ['\n', '\n'] (paragraphsOf t))).map pyStrip).filter
      (fun p => !p.isEmpty) = paragraphsOf t
  rw [hgo, hmap, List.filter_eq_self.mpr]
  intro p hp
  simpa using mem_paragraphsOf_ne t p hp

/-! ## Claim C6 -/

theorem sepThink_noOpener (t : List Char) (h : noOpener t = true) :
    separate_thinking t = ([], joinSep ['\n', '\n'] (paragraphsOf t)) := by
  have hA : ∀ p ∈ paragraphsOf t, monologueMatch p = false := by
    intro p hp
    have := (List.all_eq_true.mp h) p hp
    simp only [Bool.and_eq_true, Bool.not_eq_true'] at this
    exact this.1
  have hB : ∀ p ∈ paragraphsOf t, ∀ s ∈ sentencesOf p, monologueMatch s = false := by
    intro p hp s hs
    have := (List.all_eq_true.mp h) p hp
    simp only [Bool.and_eq_true, Bool.not_eq_true'] at this
    have := (List.all_eq_true.mp this.2) s hs
    simpa using this
  unfold separate_thinking
  dsimp only
  cases hps : paragraphsOf t with
  | nil =>
    have hstrip := paragraphsOf_nil_strip t hps
    simp [joinSep, hstrip]
  | cons p rest =>
    have hfold : List.foldl paraStep ([], [], false) (p :: rest)
        = ([], p :: rest, true) := by
      apply foldl_paraStep_nomatch
      · intro q hq
        exact hA q (by rw [hps]; exact hq)
      · simp
    rw [hfold]
    have hpne : p ≠ [] := mem_paragraphsOf_ne t p (by rw [hps]; exact List.mem_cons_self _ _)
    cases rest with
    | nil =>
      have hsplit : split_monologue_sentences p = none :=
        split_none_of_nomatch p
          (hB p (by rw [hps]; exact List.mem_cons_self _ _))
      simp [hsplit, joinSep, hpne]
    | cons q rest2 =>
      have hrne : joinSep ['\n', '\n'] (p :: q :: rest2) ≠ [] :=
        joinSep_ne_nil _ _ _ hpne
      simp [joinSep, hpne]

theorem claim_C6_pre (t : List Char) (h : noOpener t = true) :
    separate_thinking (joinSep ['\n', '\n'] (paragraphsOf t))
      = ([], joinSep ['\n', '\n'] (paragraphsOf t)) := by
  by_cases hne : paragraphsOf t = []
  · rw [hne]
    decide
  · have hre : paragraphsOf (joinSep ['\n', '\n'] (paragraphsOf t)) = paragraphsOf t :=
      paragraphsOf_joinSep t hne
    have hno2 : noOpener (joinSep ['\n', '\n'] (paragraphsOf t)) = true := by
      unfold noOpener at h ⊢
      rw [hre]
      exact h
    have h2 := sepThink_noOpener _ hno2
    rw [hre] at h2
    exact h2

/-- C6 as stated is false: `"a \n\nb"` contains no recognized
    meta-commentary opener, yet the returned answer is the normalized
    paragraph join `"a\n\nb"`, not the trimmed input `"a \n\nb"`. -/
theorem claim_C6_counterexample :
    noOpener (("a \n\nb").data) = true ∧
    (separate_thinking (("a \n\nb").data)).1 = [] ∧
    (separate_thinking (("a \n\nb").data)).2 ≠ pyStrip (("a \n\nb").data) := by
  decide

/-- C6 (corrected): for every text containing no recognized
    meta-commentary opener (no stripped paragraph, nor any of its
    stripped sentences, matches the pattern), classify returns empty
    reasoning and the stripped paragraphs of the input rejoined with a
    blank line (rather than the trimmed input verbatim); classifying
    that answer again returns the same answer with empty reasoning
    (idempotence). -/
theorem claim_C6 (t : List Char) (h : noOpener t = true) :
    separate_thinking t = ([], joinSep ['\n', '\n'] (paragraphsOf t)) ∧
    separate_thinking (joinSep ['\n', '\n'] (paragraphsOf t))
      = ([], joinSep ['\n', '\n'] (paragraphsOf t)) :=
  ⟨sepThink_noOpener t h, claim_C6_pre t h⟩

/-- Witness for C6 at a concrete opener-free input. -/
theorem claim_C6_witness :
    separate_thinking (("Hello there.\n\nBye now.").data)
      = ([], joinSep ['\n', '\n'] (paragraphsOf (("Hello there.\n\nBye now.").data))) ∧
    separate_thinking
        (joinSep ['\n', '\n'] (paragraphsOf (("Hello there.\n\nBye now.").data)))
      = ([], joinSep ['\n', '\n'] (paragraphsOf (("Hello there.\n\nBye now.").data))) :=
  claim_C6 (("Hello there.\n\nBye now.").data) (by decide)
